/-
Verification of the checkerboard-puzzle solver (src/solver.py).

The development shallowly embeds the algorithmic core of the solver:
geometry (`leftmost_lowest`, `rotate_addrs`), the piece catalog with its
four derived orientations per piece, the board/solution state, the lazy
candidate generators (modelled as cursors into the fixed 12×4 candidate
matrix, with the filter predicate evaluated against the live state, as a
Python generator expression does), and the `touch_began` / `update` step
logic including the places where the Python code can raise exceptions
(`IndexError` from popping an empty list, `ValueError` from `min([])`).
-/
import Mathlib

namespace Checkerboard

/-- A board / piece cell address, mirroring the Python `(x, y)` tuples. -/
abbrev Addr := Int × Int

/-- Source `mycolors = ('black', 'red')`; colors are modelled by their index:
`0 = black`, `1 = red`. -/
def numColors : Nat := 2

/-- Source `leftmost_lowest(addrs)` (solver.py lines 84-88): the leftmost address
from the lowest row.  `min` of an empty list raises `ValueError` in Python;
callers of this Lean version check emptiness separately, and the `(0, 0)`
result on `[]` is never used. -/
def leftmost_lowest (addrs : List Addr) : Addr :=
  match (addrs.map Prod.snd).min? with
  | none => (0, 0)
  | some ymin =>
    match ((addrs.filter (fun p => p.2 == ymin)).map Prod.fst).min? with
    | none => (0, 0)
    | some xmin => (xmin, ymin)

/-- Source `rotate_addrs(addrs)` (solver.py lines 91-98): rotate 90° clockwise,
`(x, y) ↦ (y, -x)`, then translate so the new leftmost-lowest cell is
`(0, 0)`; returns the translated cells and the translation offset. -/
def rotate_addrs (addrs : List Addr) : List Addr × Addr :=
  let new_addrs := addrs.map (fun p => (p.2, -p.1))
  let ll := leftmost_lowest new_addrs
  let offset_addr := (-ll.1, -ll.2)
  (new_addrs.map (fun p => (p.1 + offset_addr.1, p.2 + offset_addr.2)), offset_addr)

/-- The base shapes of the 12 pieces (solver.py lines 219-233), indexed by
piece id (`itertools.count` assigns ids 0..11 in definition order). -/
def baseCellsOf : Nat → List Addr
  | 0 => [(0, 0), (0, 1), (0, 2), (1, 2)]
  | 1 => [(0, 0), (0, 1), (0, 2), (0, 3), (-1, 3)]
  | 2 => [(0, 0), (0, 1), (0, 2), (1, 2), (0, 3)]
  | 3 => [(0, 0), (0, 1), (0, 2), (1, 2), (1, 3)]
  | 4 => [(0, 0), (0, 1), (0, 2), (-1, 2), (-1, 3)]
  | 5 => [(0, 0), (0, 1), (0, 2), (0, 3), (-1, 2), (-1, 1)]
  | 6 => [(0, 0), (0, 1), (0, 2), (-1, 2), (1, 0)]
  | 7 => [(0, 0), (0, 1), (0, 2), (0, 3), (-1, 3)]
  | 8 => [(0, 0), (0, 1), (0, 2), (1, 0), (1, 1), (2, 0)]
  | 9 => [(0, 0), (0, 1), (0, 2), (0, 3), (-1, 1), (-1, 2), (1, 1), (1, 2)]
  | 10 => [(0, 0), (0, 1), (0, 2), (0, 3), (1, 1)]
  | 11 => [(0, 0), (0, 1), (0, 2), (-1, 2), (1, 0)]
  | _ => []

/-- The base anchor (`ll_color`) of each piece: pieces 3, 5 and 7 are
constructed with `'black'` (index 0), all others with `'red'` (index 1). -/
def baseColorOf : Nat → Nat
  | 3 => 0
  | 5 => 0
  | 7 => 0
  | _ => 1

/-- Source `square_addrs[oid]` for one piece (solver.py lines 196-211): orientation
0 is the base shape; orientation `k+1` is `rotate_addrs` of orientation `k`. -/
def orientCells (base : List Addr) : Nat → List Addr
  | 0 => base
  | k + 1 => (rotate_addrs (orientCells base k)).1

/-- Source `ll_square_color[oid]` for one piece (solver.py lines 208-213): the
anchor color flips once per unit of parity in the renormalizing translation
offset, `(index(prev) + sum(partial_offset_addr)) % 2`. -/
def orientColor (base : List Addr) (c0 : Nat) : Nat → Nat
  | 0 => c0
  | k + 1 =>
    let off := (rotate_addrs (orientCells base k)).2
    (orientColor base c0 k + ((off.1 + off.2) % 2).toNat) % 2

/-- Source `pieces[pid].square_addrs[oid]`. -/
def square_addrs (pid oid : Nat) : List Addr :=
  orientCells (baseCellsOf pid) oid

/-- Source `pieces[pid].ll_square_color[oid]` as a color index. -/
def ll_square_color (pid oid : Nat) : Nat :=
  orientColor (baseCellsOf pid) (baseColorOf pid) oid

/-- The true color of a cell of orientation `k`, obtained by transporting
the base coloring (solver.py line 135: `(index(ll_color) + x + y) % 2`)
through the rotations: the cell `p` of orientation `k+1` is the image of
the cell `(off.2 - p.2, p.1 - off.1)` of orientation `k` under
`(x, y) ↦ (y, -x)` followed by the translation `off`. -/
def transColor (base : List Addr) (c0 : Nat) : Nat → Addr → Nat
  | 0, p => (((c0 : Int) + p.1 + p.2) % 2).toNat
  | k + 1, p =>
    let off := (rotate_addrs (orientCells base k)).2
    transColor base c0 k (off.2 - p.2, p.1 - off.1)

/-- Construction errors of `Piece.__init__`: the `assert
leftmost_lowest(square_addrs) == (0, 0)` (solver.py line 124) raises
`AssertionError`; an empty cell list would make `min([])` raise
`ValueError` inside `leftmost_lowest` first. -/
inductive ConstructErr where
  | assertionError
  | valueError
deriving DecidableEq

/-- Source `Piece.__init__(square_addrs, ll_color)` as a checked constructor: the
piece data (its base cells and base anchor color) results unless the
leftmost-lowest-at-origin invariant fails. -/
def mkPiece (cells : List Addr) (ll_color : Nat) : Except ConstructErr (List Addr × Nat) :=
  if cells = [] then .error .valueError
  else if leftmost_lowest cells = (0, 0) then .ok (cells, ll_color)
  else .error .assertionError

/-- Source `board_addrs = [(x, y) for x in range(8) for y in range(8)]`
(solver.py line 69; the same list initializes `soln.space_addrs`). -/
def board_addrs : List Addr :=
  (List.range 8).flatMap (fun x => (List.range 8).map (fun y => ((x : Int), (y : Int))))

/-- Runtime errors of the search core: `IndexError` (pop from an empty
list, or indexing an empty `generators` list) and `ValueError`
(`min([])` inside `leftmost_lowest`). -/
inductive Err where
  | indexError
  | valueError
deriving DecidableEq

/-- The observable outcome of one search step, per the spec's
`SearchOutcome` (the source signals these with sounds/sprite moves). -/
inductive Outcome where
  | placed (pid oid : Nat)
  | rejected (pid oid : Nat)
  | backtrack (pid : Nat)
deriving DecidableEq

/-- The mutable core state of a `Puzzle` run: `soln.space_addrs`,
`soln.occupied_addrs`, `soln.piece_ids`, `soln.pieces` (as `(id, oid)`
pairs; only the id and the orientation of the last, tentative, entry are
ever read), `pool.generators` (as cursors into the fixed candidate order,
freshest first), `soln.ll_space_color`, the `attempt_started_flag`, and
whether `touch_began` has been replaced by `nop` (the solved latch,
solver.py line 498). -/
structure PState where
  space_addrs : List Addr
  occupied_addrs : List (List Addr)
  piece_ids : List Nat
  soln_pieces : List (Nat × Nat)
  generators : List Nat
  ll_space_color : Nat
  attempt_started : Bool
  touch_disabled : Bool
deriving DecidableEq

/-- The result of running one event handler: the state as mutated so far,
the outcome signalled (if any), and the Python exception that escaped (if
any).  A raised exception leaves the mutations already performed in place,
exactly as in Python. -/
structure StepResult where
  state : PState
  outcome : Option Outcome
  err : Option Err
deriving DecidableEq

/-- The filter predicate of a candidate generator, applied to candidate
index `i` (candidate `i` is `(piece i/4, orientation i%4)`, the order of
`for piece in pieces for oid in range(4)`): the orientation's anchor color
must equal the required color and, for non-root generators (solver.py
lines 506-509), the piece must not be in the live `piece_ids`; the root
generator (solver.py lines 324-327) omits the exclusion clause. -/
def candOK (isRoot : Bool) (color : Nat) (placed : List Nat) (i : Nat) : Bool :=
  (ll_square_color (i / 4) (i % 4) == color) && (isRoot || !(placed.contains (i / 4)))

/-- Scan for the next candidate index at or after the cursor `c`, with
enough fuel to cover the 48 candidates. -/
def pullIdx (isRoot : Bool) (color : Nat) (placed : List Nat) : Nat → Nat → Option Nat
  | 0, _ => none
  | fuel + 1, c =>
    if c < 48 then
      (if candOK isRoot color placed c then some c else pullIdx isRoot color placed fuel (c + 1))
    else none

/-- Source `next(generator)`: the generator is a cursor `c` into the fixed
candidate order; a pull returns the next matching `(pieceId, oid)` pair
and the advanced cursor, or `none` (Python `StopIteration`) when the
remaining candidates are exhausted.  The filter reads the required color
and the placed set from the state at pull time. -/
def pull (isRoot : Bool) (color : Nat) (placed : List Nat) (c : Nat) :
    Option (Nat × Nat) × Nat :=
  match pullIdx isRoot color placed (48 - c) c with
  | some i => (some (i / 4, i % 4), i + 1)
  | none => (none, c)

/-- Source `[(addr[0] + ll[0], addr[1] + ll[1]) for addr in square_addrs]`. -/
def translate_addrs (ll : Addr) (cells : List Addr) : List Addr :=
  cells.map (fun p => (p.1 + ll.1, p.2 + ll.2))

/-- Source `Puzzle.is_viable` (solver.py lines 447-457): the last tentative
piece's orientation cells, translated so the anchor lands on the
leftmost-lowest free cell, must all be free. -/
def is_viable (s : PState) : Bool :=
  match s.soln_pieces.getLast? with
  | none => false
  | some (pid, oid) =>
    (translate_addrs (leftmost_lowest s.space_addrs) (square_addrs pid oid)).all
      (fun a => s.space_addrs.contains a)

/-- Source `Puzzle.touch_began` (solver.py lines 360-445), serialized (not busy):
pull from the freshest generator; on success start a placement attempt
(append the tentative piece, set the flag); on `StopIteration` discard the
generator and revert the most recent commit (pop `soln.pieces`,
`occupied_addrs`, `piece_ids`, return the cells to `space_addrs`, update
the spotlight color).  When the root generator is exhausted with zero
placements, `self.soln.pieces.pop()` raises `IndexError` (line 383),
after the generator was already discarded. -/
def touch_began (s : PState) : StepResult :=
  if s.touch_disabled then ⟨s, none, none⟩
  else
    match s.generators with
    | [] => ⟨s, none, some .indexError⟩
    | c :: rest =>
      match pull rest.isEmpty s.ll_space_color s.piece_ids c with
      | (some (pid, oid), c') =>
        let s1 : PState := { s with generators := c' :: rest }
        if s1.space_addrs.isEmpty then ⟨s1, none, some .valueError⟩
        else
          ⟨{ s1 with soln_pieces := s1.soln_pieces ++ [(pid, oid)],
                     attempt_started := true }, none, none⟩
      | (none, _) =>
        let s1 : PState := { s with generators := rest }
        match s1.soln_pieces.getLast? with
        | none => ⟨s1, none, some .indexError⟩
        | some (pid, _) =>
          let s2 : PState := { s1 with soln_pieces := s1.soln_pieces.dropLast }
          match s2.occupied_addrs.getLast? with
          | none => ⟨s2, none, some .indexError⟩
          | some addrs =>
            let s3 : PState := { s2 with occupied_addrs := s2.occupied_addrs.dropLast,
                                         space_addrs := s2.space_addrs ++ addrs }
            match s3.piece_ids.getLast? with
            | none => ⟨s3, none, some .indexError⟩
            | some _ =>
              let s4 : PState := { s3 with piece_ids := s3.piece_ids.dropLast }
              if s4.space_addrs.isEmpty then ⟨s4, none, some .valueError⟩
              else
                let ll := leftmost_lowest s4.space_addrs
                ⟨{ s4 with ll_space_color := ((ll.1 + ll.2) % 2).toNat },
                  some (.backtrack pid), none⟩

/-- Source `Puzzle.update` (solver.py lines 459-532), serialized (not busy): when
an attempt is pending, validate it.  Viable: transplant the cells from
`space_addrs` to `occupied_addrs` (first-occurrence removal, the
`index`/`pop` loop), record the piece id, latch the solved state when all
12 pieces are placed, recompute the spotlight/required color — which
raises `ValueError` at line 501 when the free-cell list has just become
empty — and push a fresh generator.  Not viable: pop the tentative piece
and leave the board untouched. -/
def update (s : PState) : StepResult :=
  if s.attempt_started = false then ⟨s, none, none⟩
  else
    let s0 : PState := { s with attempt_started := false }
    match s0.soln_pieces.getLast? with
    | none => ⟨s0, none, some .indexError⟩
    | some (pid, oid) =>
      if s0.space_addrs.isEmpty then ⟨s0, none, some .valueError⟩
      else
        let new_addrs := translate_addrs (leftmost_lowest s0.space_addrs) (square_addrs pid oid)
        if is_viable s0 then
          let space1 := new_addrs.foldl List.erase s0.space_addrs
          let occupied1 := s0.occupied_addrs ++ [new_addrs]
          let ids1 := s0.piece_ids ++ [pid]
          let disabled1 := s0.touch_disabled || (ids1.length == 12)
          if space1.isEmpty then
            ⟨{ s0 with space_addrs := space1, occupied_addrs := occupied1,
                       piece_ids := ids1, touch_disabled := disabled1 },
              some (.placed pid oid), some .valueError⟩
          else
            let ll1 := leftmost_lowest space1
            ⟨{ s0 with space_addrs := space1, occupied_addrs := occupied1,
                       piece_ids := ids1, touch_disabled := disabled1,
                       ll_space_color := ((ll1.1 + ll1.2) % 2).toNat,
                       generators := 0 :: s0.generators },
              some (.placed pid oid), none⟩
        else
          ⟨{ s0 with soln_pieces := s0.soln_pieces.dropLast },
            some (.rejected pid oid), none⟩

/-- Starting a placement attempt for a given candidate, as `touch_began`
does on a successful pull (solver.py lines 438-445): append the tentative
`(pieceId, oid)` and set `attempt_started_flag`. -/
def startAttempt (s : PState) (pid oid : Nat) : PState :=
  { s with soln_pieces := s.soln_pieces ++ [(pid, oid)], attempt_started := true }

/-- A full placement attempt for a candidate: start it, then let `update`
assess and accept or revert it. -/
def tryPlace (s : PState) (pid oid : Nat) : StepResult :=
  update (startAttempt s pid oid)

/-- One externally driven search step: a touch (pull a candidate and start
the attempt, or backtrack), followed by the `update` validation of the
attempt it started.  Exceptions propagate. -/
def step (s : PState) : StepResult :=
  let r := touch_began s
  match r.err with
  | some _ => r
  | none => if r.state.attempt_started then update r.state else r

/-- The initial state built by `Puzzle.setup` (solver.py lines 324-355):
all 64 cells free, nothing placed, the single root generator at cursor 0,
and the required color of `leftmost_lowest(board) = (0, 0)`, i.e. black. -/
def initState : PState :=
  ⟨board_addrs, [], [], [], [0], 0, false, false⟩

/-- The states reachable from the initial configuration by error-free
steps; these are exactly the idle-between-steps states of the engine. -/
inductive Reachable : PState → Prop where
  | init : Reachable initState
  | next : ∀ s, Reachable s → (step s).err = none → Reachable (step s).state

/-- Source `reset()` or a fresh setup per the spec: 64 free cells in board order,
no placements, a single root generator, the corner's required color. -/
def FreshInit (s : PState) : Prop :=
  s.space_addrs = board_addrs ∧ s.occupied_addrs = [] ∧ s.piece_ids = [] ∧
  s.soln_pieces = [] ∧ s.generators = [0] ∧ s.ll_space_color = 0 ∧
  s.attempt_started = false ∧ s.touch_disabled = false

/-- Run `n` search steps, collecting the emitted outcomes; stop at the
first escaping exception. -/
def runSteps : Nat → PState → PState × List Outcome × Option Err
  | 0, s => (s, [], none)
  | n + 1, s =>
    let r := step s
    match r.err with
    | some e => (r.state, r.outcome.toList, some e)
    | none =>
      let rest := runSteps n r.state
      (rest.1, r.outcome.toList ++ rest.2.1, rest.2.2)

/-- The board state in which the root candidate generator has run through
all 48 candidates (cursor 48) with zero placements committed: the next
step encounters `StopIteration` on the bottom-most frame. -/
def rootExhaustedState : PState :=
  ⟨board_addrs, [], [], [], [48], 0, false, false⟩

/-- The five free cells of a board one placement away from completion:
exactly the cells piece 11 (orientation 0) covers when anchored at the
leftmost-lowest free cell `(1, 0)`. -/
def lastGapFree : List Addr := [(1, 0), (1, 1), (1, 2), (0, 2), (2, 0)]

/-- The other 59 board cells, split into 11 committed placements (10 of 5
cells and one of 9), so that the partition and stack invariants hold. -/
def lastGapOccupied : List (List Addr) :=
  (List.range 11).map (fun k =>
    if k < 10 then ((board_addrs.diff lastGapFree).drop (5 * k)).take 5
    else (board_addrs.diff lastGapFree).drop 50)

/-- A board state one placement away from completion: pieces 0..10 are
committed, the free cells are exactly `lastGapFree`, the required color is
red (the color of `(1, 0)`), and the top generator's next candidate is
piece 11, orientation 0 (candidate index 44). -/
def lastGapState : PState :=
  ⟨lastGapFree, lastGapOccupied, List.range 11, [], 44 :: List.replicate 11 48, 1,
    false, false⟩

/-! ## Properties of the candidate scan -/

theorem pullIdx_some_spec (r : Bool) (col : Nat) (pl : List Nat) :
    ∀ fuel c i, pullIdx r col pl fuel c = some i →
      c ≤ i ∧ i < 48 ∧ candOK r col pl i = true ∧
      ∀ j, c ≤ j → j < i → candOK r col pl j = false := by
  intro fuel
  induction fuel with
  | zero => intro c i h; simp [pullIdx] at h
  | succ n ih =>
    intro c i h
    simp only [pullIdx] at h
    by_cases hc : c < 48
    · rw [if_pos hc] at h
      by_cases hcand : candOK r col pl c = true
      · rw [if_pos hcand] at h
        have hci : c = i := by exact Option.some.inj h
        subst hci
        exact ⟨Nat.le_refl _, hc, hcand, fun j hj hj2 => absurd (Nat.lt_of_le_of_lt hj hj2) (Nat.lt_irrefl _)⟩
      · rw [if_neg hcand] at h
        obtain ⟨h1, h2, h3, h4⟩ := ih (c + 1) i h
        refine ⟨by omega, h2, h3, ?_⟩
        intro j hj hji
        rcases Nat.eq_or_lt_of_le hj with hje | hjl
        · subst hje; exact Bool.eq_false_iff.mpr hcand
        · exact h4 j hjl hji
    · rw [if_neg hc] at h
      exact absurd h (by simp)

theorem pullIdx_none_spec (r : Bool) (col : Nat) (pl : List Nat) :
    ∀ fuel c, 48 ≤ c + fuel → pullIdx r col pl fuel c = none →
      ∀ j, c ≤ j → j < 48 → candOK r col pl j = false := by
  intro fuel
  induction fuel with
  | zero => intro c hfc _ j hj hj48; omega
  | succ n ih =>
    intro c hfc h j hj hj48
    simp only [pullIdx] at h
    have hc : c < 48 := by omega
    rw [if_pos hc] at h
    by_cases hcand : candOK r col pl c = true
    · rw [if_pos hcand] at h; exact absurd h (by simp)
    · rw [if_neg hcand] at h
      rcases Nat.eq_or_lt_of_le hj with hje | hjl
      · subst hje; exact Bool.eq_false_iff.mpr hcand
      · exact ih (c + 1) (by omega) h j hjl hj48

theorem pull_some_spec (r : Bool) (col : Nat) (pl : List Nat) (c : Nat)
    (pid oid c' : Nat) (h : pull r col pl c = (some (pid, oid), c')) :
    ll_square_color pid oid = col ∧ (r = false → pl.contains pid = false) ∧
    pid < 12 ∧ oid < 4 ∧
    ∃ i, pid = i / 4 ∧ oid = i % 4 ∧ c ≤ i ∧ i < 48 ∧ c' = i + 1 ∧
      ∀ j, c ≤ j → j < i → candOK r col pl j = false := by
  unfold pull at h
  rcases hp : pullIdx r col pl (48 - c) c with _ | i
  · rw [hp] at h; exact absurd (congrArg Prod.fst h) (by simp)
  · rw [hp] at h
    obtain ⟨h1, h2, h3, h4⟩ := pullIdx_some_spec r col pl (48 - c) c i hp
    have h5 := congrArg Prod.fst h
    have h6 := congrArg Prod.snd h
    simp only [Option.some.injEq, Prod.mk.injEq] at h5 h6
    obtain ⟨hpid, hoid⟩ := h5
    subst hpid; subst hoid; subst h6
    unfold candOK at h3
    rw [Bool.and_eq_true] at h3
    obtain ⟨hcol, hrest⟩ := h3
    refine ⟨by simpa using hcol, ?_, by omega, by omega, i, rfl, rfl, h1, h2, rfl, h4⟩
    intro hr
    subst hr
    simpa using hrest

theorem pull_none_spec (r : Bool) (col : Nat) (pl : List Nat) (c : Nat)
    (h : (pull r col pl c).1 = none) :
    ∀ j, c ≤ j → j < 48 → candOK r col pl j = false := by
  unfold pull at h
  rcases hp : pullIdx r col pl (48 - c) c with _ | i
  · exact pullIdx_none_spec r col pl (48 - c) c (by omega) hp
  · rw [hp] at h; exact absurd h (by simp)

theorem candOK_root (col : Nat) (i : Nat) :
    candOK true col [] i = candOK false col [] i := by
  simp [candOK]

theorem pullIdx_root (col : Nat) :
    ∀ fuel c, pullIdx true col [] fuel c = pullIdx false col [] fuel c := by
  intro fuel
  induction fuel with
  | zero => intro c; rfl
  | succ n ih =>
    intro c
    simp only [pullIdx, candOK_root, ih]

theorem pull_root (col : Nat) (c : Nat) :
    pull true col [] c = pull false col [] c := by
  unfold pull
  rw [pullIdx_root]

/-! ## Small facts about the catalog and the board -/

theorem nodup_square_addrs : ∀ pid < 12, ∀ oid < 4, (square_addrs pid oid).Nodup := by
  decide

theorem board_nodup : board_addrs.Nodup := by decide

theorem translate_nodup (ll : Addr) {cells : List Addr} (h : cells.Nodup) :
    (translate_addrs ll cells).Nodup := by
  refine List.Nodup.map ?_ h
  intro a b hab
  simp only [Prod.mk.injEq] at hab
  obtain ⟨h1, h2⟩ := hab
  have : a.1 = b.1 := by omega
  have : a.2 = b.2 := by omega
  cases a; cases b; simp_all

/-! ## The reachable-state invariant -/

/-- The invariant maintained across steps: the free cells together with
the committed cells are a permutation of the 64 board cells, the stack
holds one more generator than there are commits, and no attempt is
pending (the engine is idle). -/
def GoodState (s : PState) : Prop :=
  (s.space_addrs ++ s.occupied_addrs.flatten).Perm board_addrs ∧
  s.generators.length = s.piece_ids.length + 1 ∧
  s.attempt_started = false

theorem perm_cons_erase_of_mem {a : Addr} {l : List Addr} (h : a ∈ l) :
    l.Perm (a :: l.erase a) := by
  induction l with
  | nil => cases h
  | cons b l ih =>
    by_cases hab : a = b
    · subst hab
      rw [List.erase_cons_head]
    · have hmem : a ∈ l := by
        rcases List.mem_cons.mp h with h1 | h1
        · exact absurd h1 hab
        · exact h1
      have hba : ¬(b == a) = true := by
        simp only [beq_iff_eq]
        exact fun hc => hab hc.symm
      rw [List.erase_cons_tail hba]
      exact List.Perm.trans (List.Perm.cons b (ih hmem)) (List.Perm.swap a b _)

theorem erase_all_perm (N : List Addr) :
    ∀ space : List Addr, N.Nodup → (∀ a ∈ N, a ∈ space) →
      (List.foldl List.erase space N ++ N).Perm space := by
  induction N with
  | nil => intro space _ _; simp
  | cons a N ih =>
    intro space hnd hsub
    have hmem : a ∈ space := hsub a (List.mem_cons_self a N)
    have hnd' : N.Nodup := (List.nodup_cons.mp hnd).2
    have hnotmem : a ∉ N := (List.nodup_cons.mp hnd).1
    have hsub' : ∀ b ∈ N, b ∈ space.erase a := by
      intro b hb
      have hne : b ≠ a := fun hc => hnotmem (hc ▸ hb)
      rw [List.mem_erase_of_ne hne]
      exact hsub b (List.mem_cons_of_mem a hb)
    have ihe := ih (space.erase a) hnd' hsub'
    have h1 : List.foldl List.erase space (a :: N) ++ (a :: N)
        = List.foldl List.erase (space.erase a) N ++ (a :: N) := by
      simp [List.foldl_cons]
    rw [h1]
    refine List.Perm.trans List.perm_middle ?_
    refine List.Perm.trans (List.Perm.cons a ihe) ?_
    exact (perm_cons_erase_of_mem hmem).symm

theorem accept_perm (space N : List Addr) (occ : List (List Addr))
    (hperm : (space ++ occ.flatten).Perm board_addrs)
    (hN : N.Nodup) (hsub : ∀ a ∈ N, a ∈ space) :
    (List.foldl List.erase space N ++ (occ ++ [N]).flatten).Perm board_addrs := by
  have hflat : (occ ++ [N]).flatten = occ.flatten ++ N := by simp
  rw [hflat]
  refine List.Perm.trans (List.Perm.append_left _ List.perm_append_comm) ?_
  rw [← List.append_assoc]
  exact List.Perm.trans (List.Perm.append_right _ (erase_all_perm N space hN hsub)) hperm

theorem backtrack_perm (space addrs : List Addr) (occ : List (List Addr))
    (hperm : (space ++ (occ ++ [addrs]).flatten).Perm board_addrs) :
    ((space ++ addrs) ++ occ.flatten).Perm board_addrs := by
  have hflat : (occ ++ [addrs]).flatten = occ.flatten ++ addrs := by simp
  rw [hflat] at hperm
  rw [List.append_assoc]
  exact List.Perm.trans (List.Perm.append_left _ List.perm_append_comm) hperm

theorem viable_sub (t : PState) (pid oid : Nat)
    (hlast : t.soln_pieces.getLast? = some (pid, oid))
    (hv : is_viable t = true) :
    ∀ a ∈ translate_addrs (leftmost_lowest t.space_addrs) (square_addrs pid oid),
      a ∈ t.space_addrs := by
  unfold is_viable at hv
  rw [hlast] at hv
  intro a ha
  have := (List.all_eq_true.mp hv) a ha
  simpa using this

theorem update_good (t : PState)
    (hperm : (t.space_addrs ++ t.occupied_addrs.flatten).Perm board_addrs)
    (hlen : t.generators.length = t.piece_ids.length + 1)
    (hlast : ∀ pid oid, t.soln_pieces.getLast? = some (pid, oid) → pid < 12 ∧ oid < 4)
    (he : (update t).err = none) :
    GoodState (update t).state := by
  rcases h : update t with ⟨st, oc, er⟩
  rw [h] at he
  simp only at he
  subst he
  simp only
  simp only [update] at h
  split at h
  · -- attempt_started = false: the state is returned unchanged
    rename_i hatt
    obtain ⟨h1, _, _⟩ := StepResult.mk.injEq .. |>.mp h
    subst h1
    exact ⟨hperm, hlen, hatt⟩
  · -- attempt pending
    rename_i hatt
    split at h
    · -- soln_pieces empty: IndexError
      exact absurd (StepResult.mk.injEq .. |>.mp h).2.2 (by simp)
    · rename_i pr pid oid hlasteq
      split at h
      · -- space empty: ValueError
        exact absurd (StepResult.mk.injEq .. |>.mp h).2.2 (by simp)
      · rename_i hspne
        split at h
        · -- viable
          rename_i hviable
          split at h
          · -- the free list just became empty: ValueError at the spotlight
            exact absurd (StepResult.mk.injEq .. |>.mp h).2.2 (by simp)
          · -- normal accept
            obtain ⟨h1, _, _⟩ := StepResult.mk.injEq .. |>.mp h
            subst h1
            have hbounds := hlast pid oid hlasteq
            have hNnd : (translate_addrs (leftmost_lowest t.space_addrs)
                (square_addrs pid oid)).Nodup :=
              translate_nodup _ (nodup_square_addrs pid hbounds.1 oid hbounds.2)
            have hsub := viable_sub { t with attempt_started := false } pid oid hlasteq hviable
            refine ⟨?_, ?_, rfl⟩
            · exact accept_perm t.space_addrs _ t.occupied_addrs hperm hNnd hsub
            · simp [hlen]
        · -- not viable: reject, board untouched
          obtain ⟨h1, _, _⟩ := StepResult.mk.injEq .. |>.mp h
          subst h1
          exact ⟨hperm, hlen, rfl⟩

theorem touch_good (s : PState) (hg : GoodState s) (he : (touch_began s).err = none) :
    ((touch_began s).state.space_addrs
        ++ (touch_began s).state.occupied_addrs.flatten).Perm board_addrs ∧
    (touch_began s).state.generators.length
        = (touch_began s).state.piece_ids.length + 1 ∧
    (∀ pid oid, (touch_began s).state.soln_pieces.getLast? = some (pid, oid) →
        (touch_began s).state.attempt_started = true → pid < 12 ∧ oid < 4) := by
  obtain ⟨hperm, hlen, hatt⟩ := hg
  rcases h : touch_began s with ⟨st, oc, er⟩
  rw [h] at he
  simp only at he
  subst he
  simp only
  simp only [touch_began] at h
  split at h
  · -- touch disabled (solved): no-op
    obtain ⟨h1, _, _⟩ := StepResult.mk.injEq .. |>.mp h
    subst h1
    refine ⟨hperm, hlen, ?_⟩
    intro pid oid _ htrue
    rw [hatt] at htrue
    exact absurd htrue (by simp)
  · split at h
    · -- generators empty: IndexError
      exact absurd (StepResult.mk.injEq .. |>.mp h).2.2 (by simp)
    · rename_i c rest hgens
      split at h
      · -- successful pull: start the attempt
        rename_i pr pid oid c' hpull
        split at h
        · -- free list empty at sprite placement: ValueError
          exact absurd (StepResult.mk.injEq .. |>.mp h).2.2 (by simp)
        · obtain ⟨h1, _, _⟩ := StepResult.mk.injEq .. |>.mp h
          subst h1
          refine ⟨hperm, ?_, ?_⟩
          · rw [hgens] at hlen
            simpa using hlen
          · intro pid' oid' hl _
            rw [List.getLast?_concat] at hl
            obtain ⟨hp, ho⟩ := Prod.mk.injEq .. |>.mp (Option.some.inj hl)
            subst hp; subst ho
            obtain ⟨_, _, h12, h4, _⟩ := pull_some_spec _ _ _ _ _ _ _ hpull
            exact ⟨h12, h4⟩
      · -- exhausted generator: backtrack
        split at h
        · -- zero placements: IndexError from pieces.pop
          exact absurd (StepResult.mk.injEq .. |>.mp h).2.2 (by simp)
        · split at h
          · -- occupied empty: IndexError
            exact absurd (StepResult.mk.injEq .. |>.mp h).2.2 (by simp)
          · rename_i addrs hocceq
            split at h
            · -- piece_ids empty: IndexError
              exact absurd (StepResult.mk.injEq .. |>.mp h).2.2 (by simp)
            · rename_i pidl hidseq
              split at h
              · -- free list empty after restore: ValueError
                exact absurd (StepResult.mk.injEq .. |>.mp h).2.2 (by simp)
              · obtain ⟨h1, _, _⟩ := StepResult.mk.injEq .. |>.mp h
                subst h1
                refine ⟨?_, ?_, ?_⟩
                · obtain ⟨occ', hocc⟩ := List.getLast?_eq_some_iff.mp hocceq
                  simp only [hocc, List.dropLast_concat]
                  refine backtrack_perm _ _ _ ?_
                  rw [← hocc]
                  exact hperm
                · obtain ⟨ids', hids⟩ := List.getLast?_eq_some_iff.mp hidseq
                  rw [hgens] at hlen
                  simp only [hids, List.dropLast_concat, List.length_cons,
                    List.length_append, List.length_nil] at hlen ⊢
                  omega
                · intro pid' oid' _ htrue
                  rw [hatt] at htrue
                  exact absurd htrue (by simp)

theorem reachable_good : ∀ s, Reachable s → GoodState s := by
  intro s h
  induction h with
  | init =>
    refine ⟨?_, rfl, rfl⟩
    simp [initState]
  | next s hr he ih =>
    obtain ⟨hperm, hlen, hatt⟩ := ih
    rcases htb : (touch_began s).err with _ | e
    · obtain ⟨t1, t2, t3⟩ := touch_good s ⟨hperm, hlen, hatt⟩ htb
      have hstep : step s = if (touch_began s).state.attempt_started
          then update (touch_began s).state else touch_began s := by
        simp only [step, htb]
      by_cases hta : (touch_began s).state.attempt_started = true
      · rw [hstep, if_pos hta] at he ⊢
        exact update_good _ t1 t2 (fun pid oid hl => t3 pid oid hl hta) he
      · rw [hstep, if_neg hta]
        exact ⟨t1, t2, Bool.eq_false_iff.mpr hta⟩
    · have h1 : step s = touch_began s := by simp only [step, htb]
      rw [h1, htb] at he
      exact absurd he (by simp)

/-! ## Claim theorems -/

/-- C5: in every state reachable from the initial configuration by any
sequence of steps (commits, rejections and backtracks), the free-cell set
and the union of the cell sets of all committed placements are disjoint,
and their union is exactly the 64 cells of the 8×8 board. -/
theorem C5_partition_invariant (s : PState) (hr : Reachable s) :
    (∀ a : Addr, ¬(a ∈ s.space_addrs ∧ a ∈ s.occupied_addrs.flatten)) ∧
    (∀ a : Addr, (a ∈ s.space_addrs ∨ a ∈ s.occupied_addrs.flatten) ↔ a ∈ board_addrs) ∧
    board_addrs.length = 64 := by
  obtain ⟨hperm, _, _⟩ := reachable_good s hr
  have hnd : (s.space_addrs ++ s.occupied_addrs.flatten).Nodup :=
    hperm.nodup_iff.mpr board_nodup
  obtain ⟨_, _, hdisj⟩ := List.nodup_append.mp hnd
  refine ⟨?_, ?_, rfl⟩
  · rintro a ⟨ha1, ha2⟩
    exact hdisj ha1 ha2
  · intro a
    rw [← List.mem_append]
    exact hperm.mem_iff

theorem C5_partition_invariant_witness :
    ¬(((0 : Int), (0 : Int)) ∈ initState.space_addrs ∧
        ((0 : Int), (0 : Int)) ∈ initState.occupied_addrs.flatten) ∧
    ((((0 : Int), (0 : Int)) ∈ initState.space_addrs ∨
        ((0 : Int), (0 : Int)) ∈ initState.occupied_addrs.flatten) ↔
      ((0 : Int), (0 : Int)) ∈ board_addrs) := by
  obtain ⟨h1, h2, _⟩ := C5_partition_invariant initState Reachable.init
  exact ⟨h1 _, h2 _⟩

/-- C6: whenever the engine is idle between steps, the search stack of
candidate generators is exactly one frame longer than the sequence of
committed placements. -/
theorem C6_stack_placed_correspondence (s : PState) (hr : Reachable s) :
    s.generators.length = s.piece_ids.length + 1 :=
  (reachable_good s hr).2.1

theorem C6_stack_placed_correspondence_witness :
    initState.generators.length = initState.piece_ids.length + 1 :=
  C6_stack_placed_correspondence initState Reachable.init

/-- C4: a candidate generator frame yields, in strictly ascending candidate
order over pieces 0..11 and orientations 0..3, exactly the pairs whose
anchor color equals the required color and whose piece is absent from the
placed list as passed at the moment of the pull (the pull function takes
the live list); each successful pull advances the cursor past the yielded
candidate, so no pair is yielded twice; the root generator (which omits
the exclusion clause) behaves identically, and whenever it can be pulled
from a reachable state the placed list is indeed empty. -/
theorem C4_generator_enumeration :
    (∀ color placed c pid oid c',
        pull false color placed c = (some (pid, oid), c') →
        ll_square_color pid oid = color ∧ placed.contains pid = false ∧
        pid < 12 ∧ oid < 4 ∧
        ∃ i, pid = i / 4 ∧ oid = i % 4 ∧ c ≤ i ∧ i < 48 ∧ c' = i + 1 ∧
          ∀ j, c ≤ j → j < i → candOK false color placed j = false) ∧
    (∀ color placed c, (pull false color placed c).1 = none →
        ∀ j, c ≤ j → j < 48 → candOK false color placed j = false) ∧
    (∀ color c, pull true color [] c = pull false color [] c) ∧
    (∀ s, Reachable s → s.generators.length = 1 → s.piece_ids = []) := by
  refine ⟨?_, ?_, ?_, ?_⟩
  · intro color placed c pid oid c' h
    obtain ⟨h1, h2, h3, h4, h5⟩ := pull_some_spec false color placed c pid oid c' h
    exact ⟨h1, h2 rfl, h3, h4, h5⟩
  · intro color placed c h
    exact pull_none_spec false color placed c h
  · intro color c
    exact pull_root color c
  · intro s hr h1
    have h2 := (reachable_good s hr).2.1
    rw [h1] at h2
    exact List.eq_nil_of_length_eq_zero (by omega)

theorem C4_generator_enumeration_witness :
    ll_square_color 0 1 = 0 ∧ List.contains ([] : List Nat) 0 = false ∧
    0 < 12 ∧ 1 < 4 ∧
    (∃ i, 0 = i / 4 ∧ 1 = i % 4 ∧ 0 ≤ i ∧ i < 48 ∧ 2 = i + 1 ∧
      ∀ j, 0 ≤ j → j < i → candOK false 0 [] j = false) :=
  C4_generator_enumeration.1 0 [] 0 0 1 2 (by decide)

/-- C2: when the root candidate generator is exhausted with zero placements
committed, the source does not transition to a terminal Exhausted state:
`touch_began` discards the root generator and then raises `IndexError` by
popping the empty `soln.pieces` list (solver.py line 383), so the step
crashes with no outcome instead of emitting `SearchExhausted`. -/
theorem C2_root_exhaustion_crashes :
    (step rootExhaustedState).err = some .indexError ∧
    (step rootExhaustedState).outcome = none ∧
    (step rootExhaustedState).state.generators = [] ∧
    rootExhaustedState.piece_ids = [] := by decide

/-- C3: a successful placement that makes the number of committed
placements reach 12 (emptying the free-cell set) does disable further
touches (the Solved latch), but the very same `update` call then raises
`ValueError` inside `leftmost_lowest` of the now-empty free list
(solver.py line 501), so the engine crashes at the moment of solving
instead of settling into a terminal no-op Solved state.  The starting
state below satisfies the partition and stack invariants and is one
placement (piece 11, orientation 0) away from completion. -/
theorem C3_solved_transition_crashes :
    (lastGapState.space_addrs ++ lastGapState.occupied_addrs.flatten).Perm board_addrs ∧
    lastGapState.generators.length = lastGapState.piece_ids.length + 1 ∧
    (step lastGapState).outcome = some (.placed 11 0) ∧
    (step lastGapState).state.piece_ids.length = 12 ∧
    (step lastGapState).state.space_addrs = [] ∧
    (step lastGapState).state.touch_disabled = true ∧
    (step lastGapState).err = some .valueError := by decide

theorem freshInit_eq (s : PState) (h : FreshInit s) : s = initState := by
  obtain ⟨h1, h2, h3, h4, h5, h6, h7, h8⟩ := h
  cases s
  simp_all [initState]

/-- C9: two runs of the search from the same freshly reset initial
configuration (64 free cells, 12 unplaced pieces, one root generator),
driven by the same number of steps with no external interference, produce
identical outcome sequences and final states — the search is a
deterministic function of its fixed inputs. -/
theorem C9_determinism (n : Nat) (s t : PState) (hs : FreshInit s) (ht : FreshInit t) :
    runSteps n s = runSteps n t := by
  rw [freshInit_eq s hs, freshInit_eq t ht]

theorem C9_determinism_witness :
    runSteps 2 initState = runSteps 2 initState :=
  C9_determinism 2 initState initState
    ⟨rfl, rfl, rfl, rfl, rfl, rfl, rfl, rfl⟩
    ⟨rfl, rfl, rfl, rfl, rfl, rfl, rfl, rfl⟩

/-- C7: for every piece, orientation and cell `(dx, dy)` of that
orientation, `(anchorColor + dx + dy) mod 2` equals the intrinsic color of
that cell transported from the base coloring through the rotations (so the
flip-on-odd-offset rule is exactly right), and, purely arithmetically,
it equals the checkerboard color `(x + y) mod 2` of the covered absolute
cell whenever the anchor cell's color matches the anchor color — hence
committed placements never violate checkerboard coloring even though the
validator checks only cell containment. -/
theorem C7_color_consistency :
    (∀ pid < 12, ∀ k < 4, ∀ p ∈ square_addrs pid k,
        (((ll_square_color pid k : Int) + p.1 + p.2) % 2).toNat
          = transColor (baseCellsOf pid) (baseColorOf pid) k p) ∧
    (∀ (c : Nat) (dx dy ax ay : Int), ((ax + ay) % 2).toNat = c →
        ((c : Int) + dx + dy) % 2 = ((ax + dx) + (ay + dy)) % 2) := by
  constructor
  · decide
  · intro c dx dy ax ay h
    have hc : (c : Int) = (ax + ay) % 2 := by omega
    rw [hc]
    omega

theorem C7_color_consistency_witness :
    (((ll_square_color 0 0 : Int) + 0 + 0) % 2).toNat
        = transColor (baseCellsOf 0) (baseColorOf 0) 0 (0, 0) ∧
    (((1 : Nat) : Int) + 0 + 0) % 2 = (((0 : Int) + 0) + (1 + 0)) % 2 :=
  ⟨C7_color_consistency.1 0 (by decide) 0 (by decide) (0, 0) (by decide),
   C7_color_consistency.2 1 0 0 0 1 (by decide)⟩

/-- C8: for every piece, applying the rotation operator (rotate 90°
clockwise, then renormalize so the leftmost-lowest cell is the origin)
four times in succession to the base cell set yields the base cell set
again, as a set. -/
theorem C8_orientation_closure :
    ∀ pid < 12, (orientCells (baseCellsOf pid) 4).toFinset = (baseCellsOf pid).toFinset := by
  decide

theorem C8_orientation_closure_witness :
    (orientCells (baseCellsOf 0) 4).toFinset = (baseCellsOf 0).toFinset :=
  C8_orientation_closure 0 (by decide)

/-- C10: constructing a piece from a nonempty base cell set fails with the
construction-time assertion error exactly when the set's leftmost-lowest
cell is not `(0, 0)`, and succeeds otherwise; all 12 catalog pieces
satisfy the invariant and construct without error. -/
theorem C10_construction_assert :
    (∀ (cells : List Addr) (col : Nat), cells ≠ [] →
        ((mkPiece cells col = .error .assertionError ↔ leftmost_lowest cells ≠ (0, 0)) ∧
         (leftmost_lowest cells = (0, 0) → mkPiece cells col = .ok (cells, col)))) ∧
    (∀ pid < 12, mkPiece (baseCellsOf pid) (baseColorOf pid)
        = .ok (baseCellsOf pid, baseColorOf pid)) := by
  constructor
  · intro cells col hne
    unfold mkPiece
    rw [if_neg hne]
    by_cases h : leftmost_lowest cells = (0, 0)
    · rw [if_pos h]
      refine ⟨⟨fun hcontra => absurd hcontra (by simp), fun hc => absurd h hc⟩, fun _ => rfl⟩
    · rw [if_neg h]
      exact ⟨⟨fun _ => h, fun _ => rfl⟩, fun hc => absurd hc h⟩
  · intro pid hpid
    interval_cases pid <;> rfl

theorem C10_construction_assert_witness :
    (mkPiece [((1 : Int), (0 : Int))] 0 = .error .assertionError ↔
        leftmost_lowest [((1 : Int), (0 : Int))] ≠ (0, 0)) ∧
    (leftmost_lowest [((1 : Int), (0 : Int))] = (0, 0) →
        mkPiece [((1 : Int), (0 : Int))] 0 = .ok ([((1 : Int), (0 : Int))], 0)) :=
  C10_construction_assert.1 [((1 : Int), (0 : Int))] 0 (by decide)

/-- C1: a placement attempt for a `(pieceId, orientationId)` candidate on a
board with at least one free cell succeeds and mutates the board — it
removes exactly the translated cells from the free-cell list (by repeated
first-occurrence removal) and appends the commit and the piece id — if and
only if every cell of the orientation's cell set, translated so its anchor
lands on the leftmost-lowest free cell, is currently free; when the
attempt fails, the free cells, committed placements, placed ids, tentative
pieces, generators and required color are all exactly as before. -/
theorem is_viable_concat (s : PState) (pid oid : Nat) (b c : Bool)
    (gens : List Nat) (col : Nat) :
    (is_viable ⟨s.space_addrs, s.occupied_addrs, s.piece_ids,
        s.soln_pieces ++ [(pid, oid)], gens, col, b, c⟩ = true) ↔
    (∀ a ∈ translate_addrs (leftmost_lowest s.space_addrs) (square_addrs pid oid),
        a ∈ s.space_addrs) := by
  unfold is_viable
  simp [List.all_eq_true]

theorem C1_try_commit (s : PState) (pid oid : Nat) (_hpid : pid < 12) (_hoid : oid < 4)
    (hne : s.space_addrs ≠ []) :
    ((∀ a ∈ translate_addrs (leftmost_lowest s.space_addrs) (square_addrs pid oid),
          a ∈ s.space_addrs) →
        (tryPlace s pid oid).state.space_addrs
            = List.foldl List.erase s.space_addrs
                (translate_addrs (leftmost_lowest s.space_addrs) (square_addrs pid oid)) ∧
        (tryPlace s pid oid).state.occupied_addrs
            = s.occupied_addrs
                ++ [translate_addrs (leftmost_lowest s.space_addrs) (square_addrs pid oid)] ∧
        (tryPlace s pid oid).state.piece_ids = s.piece_ids ++ [pid] ∧
        (tryPlace s pid oid).outcome = some (.placed pid oid)) ∧
    (¬(∀ a ∈ translate_addrs (leftmost_lowest s.space_addrs) (square_addrs pid oid),
          a ∈ s.space_addrs) →
        (tryPlace s pid oid).state.space_addrs = s.space_addrs ∧
        (tryPlace s pid oid).state.occupied_addrs = s.occupied_addrs ∧
        (tryPlace s pid oid).state.piece_ids = s.piece_ids ∧
        (tryPlace s pid oid).state.soln_pieces = s.soln_pieces ∧
        (tryPlace s pid oid).state.generators = s.generators ∧
        (tryPlace s pid oid).state.ll_space_color = s.ll_space_color ∧
        (tryPlace s pid oid).outcome = some (.rejected pid oid)) ∧
    ((tryPlace s pid oid).outcome = some (.placed pid oid) ↔
        ∀ a ∈ translate_addrs (leftmost_lowest s.space_addrs) (square_addrs pid oid),
          a ∈ s.space_addrs) := by
  rcases h : tryPlace s pid oid with ⟨st, oc, er⟩
  simp only
  simp only [tryPlace, update, startAttempt] at h
  split at h
  · -- startAttempt sets the flag, so this branch is impossible
    rename_i hatt
    exact absurd hatt (by simp)
  · split at h
    · -- the appended tentative list has a last element
      rename_i hnone
      rw [List.getLast?_concat] at hnone
      exact absurd hnone (by simp)
    · rename_i pr pid2 oid2 hsome
      rw [List.getLast?_concat] at hsome
      obtain ⟨hp2, ho2⟩ := Prod.mk.injEq .. |>.mp (Option.some.inj hsome)
      subst hp2
      subst ho2
      split at h
      · -- free-cell list empty: excluded by hypothesis
        rename_i hempty
        rw [List.isEmpty_iff] at hempty
        exact absurd hempty hne
      · split at h
        · -- viable: the commit happens
          rename_i hviable
          have hv := (is_viable_concat s pid oid false s.touch_disabled
            s.generators s.ll_space_color).mp hviable
          have hfields : st.space_addrs
                = List.foldl List.erase s.space_addrs
                    (translate_addrs (leftmost_lowest s.space_addrs) (square_addrs pid oid)) ∧
              st.occupied_addrs = s.occupied_addrs
                ++ [translate_addrs (leftmost_lowest s.space_addrs) (square_addrs pid oid)] ∧
              st.piece_ids = s.piece_ids ++ [pid] ∧
              oc = some (.placed pid oid) := by
            split at h
            · obtain ⟨h1, h2, _⟩ := StepResult.mk.injEq .. |>.mp h
              subst h1
              exact ⟨rfl, rfl, rfl, h2.symm⟩
            · obtain ⟨h1, h2, _⟩ := StepResult.mk.injEq .. |>.mp h
              subst h1
              exact ⟨rfl, rfl, rfl, h2.symm⟩
          exact ⟨fun _ => hfields, fun hcon => absurd hv hcon,
            ⟨fun _ => hv, fun _ => hfields.2.2.2⟩⟩
        · -- not viable: the attempt is reverted
          rename_i hviable
          have hnv : ¬(∀ a ∈ translate_addrs (leftmost_lowest s.space_addrs)
              (square_addrs pid oid), a ∈ s.space_addrs) := by
            intro hc
            exact hviable ((is_viable_concat s pid oid false s.touch_disabled
              s.generators s.ll_space_color).mpr hc)
          obtain ⟨h1, h2, _⟩ := StepResult.mk.injEq .. |>.mp h
          subst h1
          refine ⟨fun hcon => absurd hcon hnv,
            fun _ => ⟨rfl, rfl, rfl, by simp, rfl, rfl, h2.symm⟩, ⟨?_, ?_⟩⟩
          · intro hout
            rw [← h2] at hout
            exact absurd (Option.some.inj hout) (by simp)
          · intro hvv
            exact absurd hvv hnv

set_option maxRecDepth 4000

theorem C1_try_commit_witness :
    (tryPlace initState 0 0).state.piece_ids = initState.piece_ids ++ [0] ∧
    (tryPlace initState 0 0).outcome = some (.placed 0 0) := by
  have h := C1_try_commit initState 0 0 (by decide) (by decide) (by decide)
  have hall : ∀ a ∈ translate_addrs (leftmost_lowest initState.space_addrs)
      (square_addrs 0 0), a ∈ initState.space_addrs := by decide
  obtain ⟨_, _, hids, hout⟩ := h.1 hall
  exact ⟨hids, hout⟩

end Checkerboard
